import Mathlib

/-!
Verification of the iterative generation-refinement engine of
`my-agent-workbench` (services/mention.ts and services/hangout.ts).

The TypeScript services are embedded shallowly:

* `stripIncompleteMarker`, `diagnoseFailure`, `getTargetCompleteness`,
  `buildMeta`, `tryParseJson` are translated function by function; JS regex
  replacement and `String#includes` are realised as fuel-indexed structural
  scans over `List Char` so that every definition evaluates inside the kernel.
* `respondMention` and `planHangout` are pure state-machine models: the
  external `runCodexExec` boundary becomes a map from call index to
  `Except ExecErr String`, and the optional `onProgress` observer becomes a
  map from the delivered event to `Option ExecErr` (`some e` meaning the
  observer threw `e`).
* The cosmetic rewriter `formatMentionReply` calls `toSlackMarkdown`, which
  lives in `integrations/slack_formatters.js`, a file that is not part of the
  analysed sources; per the design document it is out-of-scope presentation
  glue, so the composite of trimming and formatting is abstracted as an
  arbitrary function `fmt : String → String` that all pipeline theorems
  quantify over.  Likewise `JSON.parse` is a language builtin and is
  abstracted as a `parse` parameter of the structured pipeline.
* JS number arithmetic in `getTargetCompleteness` is modelled over `ℚ`
  (checked exhaustively against IEEE-754 evaluation for small pass counts);
  `Math.round`, which rounds half-way cases toward `+∞`, is Mathlib's
  `round` on `ℚ`.
-/

namespace MyAgentWorkbench

/-! ### JS string scanning primitives -/

/-- Character class of the JS regex `\s` (also the set trimmed by
`String.prototype.trim`). -/
def isJsSpace (c : Char) : Bool :=
  c = ' ' || c = '\t' || c = '\n' || c = '\r' ||
  c = '\x0b' || c = '\x0c' || c = '\u00a0' || c = '\u1680' ||
  (0x2000 ≤ c.toNat && c.toNat ≤ 0x200a) ||
  c = '\u2028' || c = '\u2029' || c = '\u202f' || c = '\u205f' ||
  c = '\u3000' || c = '\ufeff'

/-- Substring test matching JS `String.prototype.includes`. -/
def hasSub (pat : List Char) : List Char → Bool
  | [] => pat.isEmpty
  | l@(_ :: rest) => pat.isPrefixOf l || hasSub pat rest

/-- `s.includes pat` for `String`s, as in the TypeScript sources. -/
def strIncludes (s pat : String) : Bool :=
  hasSub pat.data s.data

/-! ### Constants of services/mention.ts -/

def INCOMPLETE_MARKER : String := "※暫定回答"

def INCOMPLETE_SUFFIX : String := "（追記予定）"

def markerChars : List Char := INCOMPLETE_MARKER.data

def suffixChars : List Char := INCOMPLETE_SUFFIX.data

/-! ### stripIncompleteMarker (mention.ts)

The TypeScript is
`text.replace(INCOMPLETE_MARKER_PATTERN, "")` followed by
`.replace(/\s\x7b2,\x7d/g, " ")`, `.replace(/\n\x7b3,\x7d/g, "\n\n")` and
`.trim()`, where `INCOMPLETE_MARKER_PATTERN` is the global regex
`※暫定回答\s*（追記予定）?`.  Each global `replace` is a left-to-right
non-overlapping scan; the scans are written with an explicit fuel argument
(`fuel = length of the list` at the call site is always sufficient because
every step consumes at least one character) so they stay structurally
recursive and kernel-computable. -/

/-- One global-replace scan of the marker pattern `※暫定回答\s*（追記予定）?`
with the empty replacement.  At a match the scan consumes the marker, the
maximal following whitespace run (`\s*` is greedy and the optional suffix
starts with a non-space character, so no backtracking can occur) and the
optional suffix, then continues after the match, exactly like a JS global
`replace`. -/
def stripMarkerF : Nat → List Char → List Char
  | 0, l => l
  | _ + 1, [] => []
  | n + 1, c :: rest =>
    if markerChars.isPrefixOf (c :: rest) then
      let afterMarker := (c :: rest).drop markerChars.length
      let afterWs := afterMarker.dropWhile isJsSpace
      let afterSuffix :=
        if suffixChars.isPrefixOf afterWs then afterWs.drop suffixChars.length
        else afterWs
      stripMarkerF n afterSuffix
    else
      c :: stripMarkerF n rest

/-- Global replace of `\s\x7b2,\x7d` by a single space: a maximal whitespace
run of length at least two becomes one `' '`. -/
def collapseWsF : Nat → List Char → List Char
  | 0, l => l
  | _ + 1, [] => []
  | _ + 1, [c] => [c]
  | n + 1, c1 :: c2 :: rest =>
    if isJsSpace c1 && isJsSpace c2 then
      ' ' :: collapseWsF n (rest.dropWhile isJsSpace)
    else
      c1 :: collapseWsF n (c2 :: rest)

/-- Global replace of `\n\x7b3,\x7d` by `"\n\n"`: a maximal newline run of
length at least three becomes two newlines. -/
def collapseNlF : Nat → List Char → List Char
  | 0, l => l
  | n + 1, a :: b :: c :: rest =>
    if a = '\n' && b = '\n' && c = '\n' then
      '\n' :: '\n' :: collapseNlF n (rest.dropWhile (fun x => x = '\n'))
    else
      a :: collapseNlF n (b :: c :: rest)
  | _ + 1, l => l

/-- JS `String.prototype.trim`. -/
def trimJs (l : List Char) : List Char :=
  ((l.dropWhile isJsSpace).reverse.dropWhile isJsSpace).reverse

/-- `stripIncompleteMarker` from services/mention.ts. -/
def stripIncompleteMarker (s : String) : String :=
  let l0 := s.data
  let l1 := stripMarkerF l0.length l0
  let l2 := collapseWsF l1.length l1
  let l3 := collapseNlF l2.length l2
  String.mk (trimJs l3)

example : stripIncompleteMarker "回答です ※暫定回答（追記予定）" = "回答です" := by decide

example : stripIncompleteMarker "a  b" = "a b" := by decide

example : stripIncompleteMarker "※暫定※暫定回答回答" = "※暫定回答" := by decide

/-! ### Failure diagnosis (identical copies in mention.ts and hangout.ts) -/

/-- Error value observable by the catch blocks: the `message` of the thrown
error and the captured `stderr` stream (`""` models an absent field, matching
the `?? ""` defaulting in the sources). -/
structure ExecErr where
  message : String
  stderr : String
deriving DecidableEq

/-- ASCII lower-casing; on the keyword alphabet used by `diagnoseFailure`
this agrees with JS `String.prototype.toLowerCase`. -/
def toLowerAscii (s : String) : String :=
  String.mk (s.data.map Char.toLower)

def hintNotFound : String :=
  "Codex CLI not found. Make sure `codex` is installed and on PATH."

def hintAuth : String :=
  "Codex CLI authentication required. Run `codex login` and try again."

def hintTimedOut : String :=
  "Codex timed out. Shorten the request or increase the timeout."

def hintGeneric : String :=
  "Codex execution failed. Check server stderr for details."

/-- `diagnoseFailure` from services/mention.ts (hangout.ts contains a
character-for-character identical copy). -/
def diagnoseFailure (e : ExecErr) : String :=
  let msg := toLowerAscii (e.message ++ "\n" ++ e.stderr)
  if strIncludes msg "enoent" || strIncludes msg "spawn codex" then hintNotFound
  else if strIncludes msg "login" || strIncludes msg "not logged in" ||
      strIncludes msg "auth" then hintAuth
  else if strIncludes msg "timed out" then hintTimedOut
  else hintGeneric

/-! ### Target-completeness schedule (mention.ts) -/

/-- `DRAFT_COMPLETENESS` from services/mention.ts. -/
def DRAFT_COMPLETENESS : ℚ := 50

/-- `getTargetCompleteness` from services/mention.ts, with JS number
arithmetic modelled exactly over `ℚ`; `Math.round` (ties toward `+∞`) is
Mathlib's `round`. -/
def getTargetCompleteness (pass totalPasses : ℤ) : ℤ :=
  if totalPasses ≤ 1 then 100
  else
    let clampedPass := min (max pass 1) totalPasses
    let span : ℚ := 100 - DRAFT_COMPLETENESS
    let step : ℚ := span / ((totalPasses : ℚ) - 1)
    round (DRAFT_COMPLETENESS + step * ((clampedPass : ℚ) - 1))

/-- `PromptMeta` from services/mention.ts. -/
structure PromptMeta where
  pass : ℤ
  totalPasses : ℤ
  targetPercent : ℤ
  isFinal : Bool
deriving DecidableEq

/-- `buildMeta` from services/mention.ts. -/
def buildMeta (pass totalPasses : ℤ) : PromptMeta :=
  { pass := pass
    totalPasses := totalPasses
    targetPercent := getTargetCompleteness pass totalPasses
    isFinal := decide (pass ≥ totalPasses) }

/-! ### The respondMention pipeline (mention.ts)

`respondMention` is modelled as a pure function of

* `fmt : String → String` — the composite
  `stdout ↦ formatMentionReply((stdout || "").trim())`; `formatMentionReply`
  delegates to the external `toSlackMarkdown`, so the composite is kept
  abstract and universally quantified;
* `cfg : RefineConfig` — the record produced by `getRefineConfig()` (the
  environment parsing itself is configuration glue outside the pipeline);
* `exec : Nat → Except ExecErr String` — outcome of the `i`-th
  `runCodexExec` invocation of this request (call `0` is the draft, call
  `i ≥ 1` is refine attempt `i - 1`); `.error e` models a throw;
* `obs : Ev → Option ExecErr` — the awaited `onProgress` observer; `some e`
  models the observer throwing `e`, `none` a normal return (an absent
  observer is `fun _ => none`).

The model returns the request outcome together with the number of boundary
invocations performed and the list of progress events delivered, in order. -/

inductive Stage where
  | draft
  | refined
deriving DecidableEq

/-- Payload of one `onProgress` call. -/
structure Ev where
  stage : Stage
  text : String
  pass : Nat
  totalPasses : Nat
  pending : Bool
deriving DecidableEq

/-- Result of `respondMention`: `success text refined` is
`{ ok: true, text, refined }`, `failure hint` is the `{ ok: false, ... }`
return whose text embeds the diagnosed hint. -/
inductive MentionOutcome where
  | success (text : String) (refined : Bool)
  | failure (hint : String)
deriving DecidableEq

/-- Observable trace of one `respondMention` execution. -/
structure MentionTrace where
  outcome : MentionOutcome
  calls : Nat
  events : List Ev
deriving DecidableEq

/-- Output of `getRefineConfig()` in mention.ts.  In the source
`enabled = false` forces `maxRefines = 0` and `enabled = true` yields
`maxRefines ≥ 1`; the model does not need that invariant. -/
structure RefineConfig where
  enabled : Bool
  maxRefines : Nat
deriving DecidableEq

/-- `totalPasses = 1 + maxRefines` (mention.ts). -/
def RefineConfig.totalPasses (cfg : RefineConfig) : Nat :=
  1 + cfg.maxRefines

/-- The error thrown by `throw new Error("Empty response from codex.")`. -/
def emptyRespErr : ExecErr := ⟨"Empty response from codex.", ""⟩

/-- The code run after the refine loop ends (by exhaustion or by `break`):
`if (currentInternal !== draftInternal) return ok/currentDisplay/refined:true`
else `return ok/draftDisplay/refined:false`. -/
def afterLoop (draftI draftD curI curD : String) : MentionOutcome :=
  if curI ≠ draftI then .success curD true else .success draftD false

/-- The progress event delivered for the draft pass. -/
def draftEvent (cfg : RefineConfig) (draftD : String) : Ev :=
  ⟨.draft, draftD, 1, cfg.totalPasses, cfg.enabled && decide (0 < cfg.maxRefines)⟩

/-- The refine loop of `respondMention`.  `attempt` is the 0-based loop
counter of the source; `remaining` is the number of loop iterations left
(`maxRefines - attempt`, and the recursion is structural on it); `curI` and
`curD` are `currentInternal` and `currentDisplay`.  Returns the outcome
together with the number of boundary calls made by the loop and the refined
progress events it delivered. -/
def refineLoop (fmt : String → String) (exec : Nat → Except ExecErr String)
    (obs : Ev → Option ExecErr) (maxR totalP : Nat) (draftI draftD : String) :
    Nat → Nat → String → String → MentionTrace
  | _, 0, curI, curD => ⟨afterLoop draftI draftD curI curD, 0, []⟩
  | attempt, remaining + 1, curI, curD =>
    match exec (attempt + 1) with
    | .error _ => ⟨afterLoop draftI draftD curI curD, 1, []⟩
    | .ok out =>
      let refinedI := fmt out
      if refinedI ≠ "" ∧ refinedI ≠ curI then
        let cD := stripIncompleteMarker refinedI
        let ev : Ev := ⟨.refined, cD, attempt + 2, totalP,
          strIncludes refinedI INCOMPLETE_MARKER && decide (0 < maxR - attempt - 1)⟩
        match obs ev with
        | some _ => ⟨afterLoop draftI draftD refinedI cD, 1, [ev]⟩
        | none =>
          if strIncludes refinedI INCOMPLETE_MARKER then
            let t := refineLoop fmt exec obs maxR totalP draftI draftD
              (attempt + 1) remaining refinedI cD
            ⟨t.outcome, t.calls + 1, ev :: t.events⟩
          else ⟨.success cD true, 1, [ev]⟩
      else
        if strIncludes curI INCOMPLETE_MARKER then
          let t := refineLoop fmt exec obs maxR totalP draftI draftD
            (attempt + 1) remaining curI curD
          ⟨t.outcome, t.calls + 1, t.events⟩
        else ⟨.success curD true, 1, []⟩

/-- `respondMention` from services/mention.ts as a pure trace function. -/
def respondMentionModel (fmt : String → String) (cfg : RefineConfig)
    (exec : Nat → Except ExecErr String) (obs : Ev → Option ExecErr) :
    MentionTrace :=
  match exec 0 with
  | .error e => ⟨.failure (diagnoseFailure e), 1, []⟩
  | .ok out =>
    let draftI := fmt out
    if draftI = "" then ⟨.failure (diagnoseFailure emptyRespErr), 1, []⟩
    else
      let draftD := stripIncompleteMarker draftI
      let ev := draftEvent cfg draftD
      match obs ev with
      | some e => ⟨.failure (diagnoseFailure e), 1, [ev]⟩
      | none =>
        if cfg.enabled then
          let t := refineLoop fmt exec obs cfg.maxRefines cfg.totalPasses
            draftI draftD 0 cfg.maxRefines draftI draftD
          ⟨t.outcome, t.calls + 1, ev :: t.events⟩
        else ⟨.success draftD false, 1, [ev]⟩

/-! ### The planHangout structured pipeline (hangout.ts)

`JSON.parse` is a JS builtin, so the model is polymorphic in the payload
type `α` and takes the parser as a parameter
`parse : String → Except ExecErr α` (`.error` models a thrown
`SyntaxError`).  `formatHangoutMessage` renders the payload through the
external `toSlackMarkdown`, so it is abstracted as `fmtPlan : α → String`.
The boundary is again `exec : Nat → Except ExecErr String` (call `0` is
attempt 1, call `1` the retry).  The trace records the prompt of every
boundary invocation actually performed. -/

/-- The error of `throw new Error("No JSON object found in codex output.")`. -/
def noJsonErr : ExecErr := ⟨"No JSON object found in codex output.", ""⟩

/-- JS `String.prototype.indexOf` for a single character (`-1` if absent). -/
def jsIndexOf (l : List Char) (c : Char) : Int :=
  match l.findIdx? (fun x => x = c) with
  | some i => (i : Int)
  | none => -1

/-- JS `String.prototype.lastIndexOf` for a single character. -/
def jsLastIndexOf (l : List Char) (c : Char) : Int :=
  match l.reverse.findIdx? (fun x => x = c) with
  | some i => (l.length : Int) - 1 - (i : Int)
  | none => -1

/-- `tryParseJson` from services/hangout.ts: locate the first `\x7b` and the
last `\x7d`; if either is absent or the last `\x7d` is not strictly after
the first `\x7b`, throw the no-JSON error; otherwise parse the inclusive
slice `stdout.slice(start, end + 1)`. -/
def tryParseJson {α : Type} (parse : String → Except ExecErr α)
    (stdout : String) : Except ExecErr α :=
  let l := stdout.data
  let start := jsIndexOf l '\x7b'
  let stop := jsLastIndexOf l '\x7d'
  if start = -1 || stop = -1 || stop ≤ start then .error noJsonErr
  else
    let jsonText := String.mk ((l.drop start.toNat).take (stop.toNat + 1 - start.toNat))
    parse jsonText

/-- The JSON-only directive appended verbatim for the retry prompt. -/
def jsonDirective : String :=
  "\n\nIMPORTANT: Output JSON ONLY. Do not include any other text."

/-- Result of `planHangout`: `success text raw` is
`{ ok: true, text, raw }`, `failure text` the `{ ok: false, ... }` return. -/
inductive PlanOutcome (α : Type) where
  | success (text : String) (raw : α)
  | failure (text : String)
deriving DecidableEq

/-- Observable trace of one `planHangout` execution: outcome plus the prompt
of every boundary invocation performed, in order. -/
structure PlanTrace (α : Type) where
  outcome : PlanOutcome α
  prompts : List String
deriving DecidableEq

/-- The user-facing text of the `ok: false` return of `planHangout`. -/
def planFailText (debugEnabled : Bool) (hint : String) : String :=
  if debugEnabled then "⚠️ 提案を生成できませんでした。\n原因: " ++ hint
  else
    "⚠️ 提案を生成できませんでした。条件を短くしてもう一度試してください。（例: `/hangout 六本木 5000 4 19:30`）\n原因: "
      ++ hint

/-- One attempt of `planHangout`: run the boundary, then `tryParseJson` on
its stdout; either throw propagates to the enclosing catch. -/
def planAttempt {α : Type} (parse : String → Except ExecErr α)
    (exec : Nat → Except ExecErr String) (i : Nat) : Except ExecErr α :=
  match exec i with
  | .ok out => tryParseJson parse out
  | .error e => .error e

/-- `planHangout` from services/hangout.ts as a pure trace function.
`prompt1` stands for `buildHangoutPrompt(slackText, slackContext)`. -/
def planHangoutModel {α : Type} (parse : String → Except ExecErr α)
    (fmtPlan : α → String) (debugEnabled : Bool) (prompt1 : String)
    (exec : Nat → Except ExecErr String) : PlanTrace α :=
  match planAttempt parse exec 0 with
  | .ok plan => ⟨.success (fmtPlan plan) plan, [prompt1]⟩
  | .error _ =>
    let prompt2 := prompt1 ++ jsonDirective
    match planAttempt parse exec 1 with
    | .ok plan => ⟨.success (fmtPlan plan) plan, [prompt1, prompt2]⟩
    | .error e2 =>
      ⟨.failure (planFailText debugEnabled (diagnoseFailure e2)), [prompt1, prompt2]⟩

/-! ### Specification-side helpers for the claim statements -/

/-- What one refine pass does to `currentInternal` as a function of the
boundary result: a successful pass whose formatted text is non-empty and
differs from the current text is adopted, anything else leaves the text
unchanged.  This is the specification-level mirror of the adoption rule
inside `refineLoop`, used to phrase "the last adopted text" in the claims. -/
def adoptStep (fmt : String → String) (cur : String)
    (res : Except ExecErr String) : String :=
  match res with
  | .error _ => cur
  | .ok out =>
    let r := fmt out
    if r ≠ "" ∧ r ≠ cur then r else cur

/-- `currentInternal` after the refine calls `base + 1, …, base + n`, all
applied to start text `c` by the adoption rule. -/
def refineFoldFrom (fmt : String → String) (exec : Nat → Except ExecErr String)
    (base : Nat) (c : String) : Nat → String
  | 0 => c
  | n + 1 => adoptStep fmt (refineFoldFrom fmt exec base c n) (exec (base + n + 1))

/-- `currentInternal` after refine calls `1, …, n` starting from draft `d`. -/
def refineFold (fmt : String → String) (exec : Nat → Except ExecErr String)
    (d : String) (n : Nat) : String :=
  refineFoldFrom fmt exec 0 d n

/-! ## Claims -/

/-- Claim C2: for `totalPasses = 1` the schedule returns `100` and the single pass
is final; for every `totalPasses ≥ 2` and `pass ∈ [1, totalPasses]`,
`getTargetCompleteness pass totalPasses = round (50 + 50/(totalPasses-1) * (pass-1))`,
so `target 1 = 50`, `target totalPasses = 100`, and the schedule is monotone
non-decreasing in the pass number. -/
theorem c2_target_completeness_schedule (t : ℤ) (ht : 2 ≤ t) :
    getTargetCompleteness 1 1 = 100 ∧
    (buildMeta 1 1).isFinal = true ∧
    (∀ p : ℤ, 1 ≤ p → p ≤ t →
      getTargetCompleteness p t =
        round ((50 : ℚ) + 50 / ((t : ℚ) - 1) * ((p : ℚ) - 1))) ∧
    getTargetCompleteness 1 t = 50 ∧
    getTargetCompleteness t t = 100 ∧
    (∀ p p' : ℤ, p ≤ p' →
      getTargetCompleteness p t ≤ getTargetCompleteness p' t) := by
  have htq : (1 : ℚ) ≤ (t : ℚ) - 1 := by
    have : (2 : ℚ) ≤ (t : ℚ) := by exact_mod_cast ht
    linarith
  have htne : (t : ℚ) - 1 ≠ 0 := by linarith
  have hstep : (0 : ℚ) ≤ 50 / ((t : ℚ) - 1) := by positivity
  have hform : ∀ p : ℤ, 1 ≤ p → p ≤ t →
      getTargetCompleteness p t =
        round ((50 : ℚ) + 50 / ((t : ℚ) - 1) * ((p : ℚ) - 1)) := by
    intro p hp1 hpt
    have hcl : min (max p 1) t = p := by omega
    have hnot : ¬ t ≤ 1 := by omega
    simp only [getTargetCompleteness, hnot, if_false, hcl, DRAFT_COMPLETENESS]
    norm_num
  refine ⟨by norm_num [getTargetCompleteness], by decide, hform, ?_, ?_, ?_⟩
  · have := hform 1 le_rfl (by omega)
    simpa using this
  · have heq := hform t (by omega) le_rfl
    rw [heq]
    have h100 : (50 : ℚ) + 50 / ((t : ℚ) - 1) * ((t : ℚ) - 1) = 100 := by
      field_simp
      norm_num
    rw [h100]
    norm_num
  · intro p p' hpp
    have hnot : ¬ t ≤ 1 := by omega
    simp only [getTargetCompleteness, hnot, if_false, DRAFT_COMPLETENESS]
    norm_num
    rw [round_eq, round_eq]
    apply Int.floor_le_floor
    have hclmono : ((min (max p 1) t : ℤ) : ℚ) ≤ ((min (max p' 1) t : ℤ) : ℚ) := by
      have : min (max p 1) t ≤ min (max p' 1) t := by omega
      exact_mod_cast this
    push_cast at hclmono
    have hmul : 50 / ((t : ℚ) - 1) * (((p : ℚ) ⊔ 1) ⊓ (t : ℚ) - 1) ≤
        50 / ((t : ℚ) - 1) * (((p' : ℚ) ⊔ 1) ⊓ (t : ℚ) - 1) := by
      apply mul_le_mul_of_nonneg_left _ hstep
      linarith
    linarith

/-- Witness for C2 at `totalPasses = 3`: the schedule is `50, 75, 100`. -/
theorem c2_target_completeness_schedule_witness :
    getTargetCompleteness 1 3 = 50 ∧ getTargetCompleteness 2 3 = 75 ∧
    getTargetCompleteness 3 3 = 100 := by
  obtain ⟨-, -, hform, h1, h3, -⟩ := c2_target_completeness_schedule 3 (by norm_num)
  refine ⟨h1, ?_, h3⟩
  rw [hform 2 (by norm_num) (by norm_num)]
  norm_num [round_eq]

/-- Claim C9, counterexample: the rules are ordered with the executable-not-found
keywords first, so an error containing "enoent", "auth" and "timed out" is
classified as not-found, not as authentication-required — refuting the claim
that every error containing both "auth" and "timed out" yields the
authentication hint. -/
theorem c9_diagnosis_ordering_counterexample :
    diagnoseFailure ⟨"enoent auth timed out", ""⟩ = hintNotFound ∧
    strIncludes (toLowerAscii ("enoent auth timed out" ++ "\n" ++ "")) "auth" = true ∧
    strIncludes (toLowerAscii ("enoent auth timed out" ++ "\n" ++ "")) "timed out" = true ∧
    hintNotFound ≠ hintAuth := by
  refine ⟨by decide, by decide, by decide, by decide⟩

/-- Claim C9, amended: `diagnoseFailure` is a pure function of the lower-cased
concatenation of message and stderr, applying rules in order; every error
whose text contains both "auth" and "timed out" *and no rule-1 keyword*
("enoent", "spawn codex") yields the authentication hint, and every input
yields one of the four pairwise distinct fixed hints. -/
theorem c9_diagnosis_ordering_amended :
    (∀ e : ExecErr,
      strIncludes (toLowerAscii (e.message ++ "\n" ++ e.stderr)) "enoent" = false →
      strIncludes (toLowerAscii (e.message ++ "\n" ++ e.stderr)) "spawn codex" = false →
      strIncludes (toLowerAscii (e.message ++ "\n" ++ e.stderr)) "auth" = true →
      strIncludes (toLowerAscii (e.message ++ "\n" ++ e.stderr)) "timed out" = true →
      diagnoseFailure e = hintAuth) ∧
    (∀ e : ExecErr,
      diagnoseFailure e = hintNotFound ∨ diagnoseFailure e = hintAuth ∨
      diagnoseFailure e = hintTimedOut ∨ diagnoseFailure e = hintGeneric) ∧
    (hintNotFound ≠ hintAuth ∧ hintNotFound ≠ hintTimedOut ∧
      hintNotFound ≠ hintGeneric ∧ hintAuth ≠ hintTimedOut ∧
      hintAuth ≠ hintGeneric ∧ hintTimedOut ≠ hintGeneric) := by
  refine ⟨?_, ?_, by decide, by decide, by decide, by decide, by decide, by decide⟩
  · intro e h1 h2 h3 _h4
    simp [diagnoseFailure, h1, h2, h3]
  · intro e
    simp only [diagnoseFailure]
    split_ifs <;> tauto

/-- Witness for the amended C9: "auth timed out" with no rule-1 keyword is
classified as authentication-required. -/
theorem c9_diagnosis_ordering_amended_witness :
    diagnoseFailure ⟨"auth timed out", ""⟩ = hintAuth :=
  c9_diagnosis_ordering_amended.1 ⟨"auth timed out", ""⟩
    (by decide) (by decide) (by decide) (by decide)

/-- Claim C6: `tryParseJson` fails with the no-JSON error when the text has no
`\x7b`, no `\x7d`, or the last `\x7d` not strictly after the first `\x7b`
(instance: the unbalanced "\x7bnot json"); otherwise it hands the inclusive
first-`\x7b`/last-`\x7d` slice to the JSON parser — on the example noise
input the exact slice is the object text, so a correct `JSON.parse` yields
`\x7ba:1\x7d`; and a parse failure surfaces as the explicit `ok: false`
result of `planHangout`, never as an uncaught fault (the model's failure
branch is reached, carrying the second error's diagnosis).  `JSON.parse`
itself is a JS builtin outside the sources and is universally quantified. -/
theorem c6_json_extraction :
    (∀ (α : Type) (parse : String → Except ExecErr α) (s : String),
      (∀ c ∈ s.data, c ≠ '\x7b') → tryParseJson parse s = .error noJsonErr) ∧
    (∀ (α : Type) (parse : String → Except ExecErr α) (s : String),
      (∀ c ∈ s.data, c ≠ '\x7d') → tryParseJson parse s = .error noJsonErr) ∧
    (∀ (α : Type) (parse : String → Except ExecErr α),
      tryParseJson parse "noise \x7b\"a\":1\x7d noise" = parse "\x7b\"a\":1\x7d") ∧
    (∀ (α : Type) (parse : String → Except ExecErr α),
      tryParseJson parse "no braces here" = .error noJsonErr) ∧
    (∀ (α : Type) (parse : String → Except ExecErr α),
      tryParseJson parse "\x7bnot json" = .error noJsonErr) ∧
    (∀ (α : Type) (parse : String → Except ExecErr α)
      (fmtPlan : α → String) (debugEnabled : Bool) (prompt1 : String)
      (exec : Nat → Except ExecErr String) (s0 s1 : String) (e0 e1 : ExecErr),
      exec 0 = .ok s0 → tryParseJson parse s0 = .error e0 →
      exec 1 = .ok s1 → tryParseJson parse s1 = .error e1 →
      planHangoutModel parse fmtPlan debugEnabled prompt1 exec =
        ⟨.failure (planFailText debugEnabled (diagnoseFailure e1)),
          [prompt1, prompt1 ++ jsonDirective]⟩) := by
  refine ⟨?_, ?_, fun α parse => rfl, fun α parse => rfl, fun α parse => rfl, ?_⟩
  · intro α parse s h
    have h1 : s.data.findIdx? (fun x => x = '\x7b') = none := by
      rw [List.findIdx?_eq_none_iff]
      intro x hx
      simpa using h x hx
    simp [tryParseJson, jsIndexOf, h1]
  · intro α parse s h
    have h1 : s.data.reverse.findIdx? (fun x => x = '\x7d') = none := by
      rw [List.findIdx?_eq_none_iff]
      intro x hx
      simpa using h x (List.mem_reverse.mp hx)
    simp [tryParseJson, jsLastIndexOf, h1]
  · intro α parse fmtPlan debugEnabled prompt1 exec s0 s1 e0 e1 h0 hp0 h1 hp1
    simp [planHangoutModel, planAttempt, h0, hp0, h1, hp1]

/-- Witness for C6: a parser stub succeeding exactly on the sliced object
text receives it and its payload is returned. -/
theorem c6_json_extraction_witness :
    tryParseJson
      (fun s => if s = "\x7b\"a\":1\x7d" then Except.ok 1 else Except.error ⟨"SyntaxError", ""⟩)
      "noise \x7b\"a\":1\x7d noise" = Except.ok 1 ∧
    tryParseJson
      (fun s => if s = "\x7b\"a\":1\x7d" then Except.ok (1 : Nat) else Except.error ⟨"SyntaxError", ""⟩)
      "no braces here" = Except.error noJsonErr := by
  constructor
  · rw [c6_json_extraction.2.2.1]
    rfl
  · rw [c6_json_extraction.2.2.2.1]

/-- Claim C5: when attempt 1 (boundary call or JSON extraction) fails and attempt
2 succeeds, `planHangout` performs exactly 2 boundary invocations, the
second prompt is the first prompt with the JSON-only directive appended
verbatim, the returned payload is the one parsed from the second
invocation, and in every execution at most one retry occurs (never more
than 2 invocations). -/
theorem c5_structured_retry (α : Type) (parse : String → Except ExecErr α)
    (fmtPlan : α → String) (debugEnabled : Bool) (prompt1 : String)
    (exec : Nat → Except ExecErr String) (e1 : ExecErr) (s1 : String) (plan2 : α)
    (hfail : exec 0 = .error e1 ∨
      ∃ s0, exec 0 = .ok s0 ∧ tryParseJson parse s0 = .error e1)
    (h1 : exec 1 = .ok s1) (hp1 : tryParseJson parse s1 = .ok plan2) :
    planHangoutModel parse fmtPlan debugEnabled prompt1 exec =
      ⟨.success (fmtPlan plan2) plan2, [prompt1, prompt1 ++ jsonDirective]⟩ ∧
    (∀ (β : Type) (parse' : String → Except ExecErr β) (fmtPlan' : β → String)
      (dbg' : Bool) (p1' : String) (exec' : Nat → Except ExecErr String),
      (planHangoutModel parse' fmtPlan' dbg' p1' exec').prompts.length ≤ 2) := by
  constructor
  · have hatt0 : planAttempt parse exec 0 = .error e1 := by
      rcases hfail with h | ⟨s0, h0, hp0⟩
      · simp [planAttempt, h]
      · simp [planAttempt, h0, hp0]
    have hatt1 : planAttempt parse exec 1 = .ok plan2 := by
      simp [planAttempt, h1, hp1]
    simp [planHangoutModel, hatt0, hatt1]
  · intro β parse' fmtPlan' dbg' p1' exec'
    unfold planHangoutModel
    rcases planAttempt parse' exec' 0 with e | p
    · rcases planAttempt parse' exec' 1 with e' | p' <;> simp
    · simp

/-- Witness for C5: a stubbed boundary whose first output has no JSON and
whose second output is the object `\x7b1\x7d` gives exactly the retry
behaviour. -/
theorem c5_structured_retry_witness :
    planHangoutModel
      (fun s => if s = "\x7b1\x7d" then Except.ok (1 : Nat) else Except.error ⟨"SyntaxError", ""⟩)
      (fun n => toString n) false "PROMPT"
      (fun i => if i = 0 then Except.ok "no json at all" else Except.ok "ok \x7b1\x7d")
      = ⟨.success "1" 1, ["PROMPT", "PROMPT" ++ jsonDirective]⟩ :=
  (c5_structured_retry Nat
    (fun s => if s = "\x7b1\x7d" then Except.ok (1 : Nat) else Except.error ⟨"SyntaxError", ""⟩)
    (fun n => toString n) false "PROMPT"
    (fun i => if i = 0 then Except.ok "no json at all" else Except.ok "ok \x7b1\x7d")
    noJsonErr "ok \x7b1\x7d" 1
    (Or.inr ⟨"no json at all", rfl, rfl⟩) rfl rfl).1

/-! ### Helper lemmas about the mention pipeline -/

/-- `ok` flag of a `respondMention` result. -/
def MentionOutcome.isOk : MentionOutcome → Bool
  | .success _ _ => true
  | .failure _ => false

theorem marker_mem_ne_empty {s : String}
    (h : strIncludes s INCOMPLETE_MARKER = true) : s ≠ "" := by
  intro he
  subst he
  exact absurd h (by decide)

/-- Every exit of the refine loop is an `ok: true` result: boundary or
observer failures inside the loop only `break` to the post-loop returns. -/
theorem refineLoop_isOk (fmt : String → String) (exec : Nat → Except ExecErr String)
    (obs : Ev → Option ExecErr) (maxR totP : Nat) (draftI draftD : String) :
    ∀ (r attempt : Nat) (curI curD : String),
      (refineLoop fmt exec obs maxR totP draftI draftD attempt r curI curD).outcome.isOk
        = true := by
  intro r
  induction r with
  | zero =>
    intro attempt curI curD
    simp only [refineLoop, afterLoop]
    split_ifs <;> rfl
  | succ n ih =>
    intro attempt curI curD
    cases hexec : exec (attempt + 1) with
    | error e =>
      simp only [refineLoop, hexec, afterLoop]
      split_ifs <;> rfl
    | ok out =>
      simp only [refineLoop, hexec]
      by_cases hadopt : fmt out ≠ "" ∧ fmt out ≠ curI
      · rw [if_pos hadopt]
        cases hobs : obs _ with
        | some e => simp only [afterLoop]; split_ifs <;> rfl
        | none =>
          by_cases hmark : strIncludes (fmt out) INCOMPLETE_MARKER = true
          · simp only [hmark, if_pos]
            exact ih (attempt + 1) (fmt out) (stripIncompleteMarker (fmt out))
          · rw [if_neg hmark]
            rfl
      · rw [if_neg hadopt]
        by_cases hmark : strIncludes curI INCOMPLETE_MARKER = true
        · simp only [hmark, if_pos]
          exact ih (attempt + 1) curI curD
        · rw [if_neg hmark]
          rfl

/-- Claim C8, counterexample: an observer that throws on the *draft* event is
caught by the outer catch block, so the pipeline returns `ok: false` even
though every boundary call succeeded — refuting the claim that a throwing
observer never aborts the pipeline. -/
theorem c8_observer_isolation_counterexample :
    (respondMentionModel id ⟨true, 4⟩ (fun _ => Except.ok "hello")
      (fun _ => some ⟨"observer failed", ""⟩)).outcome = .failure hintGeneric := by
  decide

/-- Claim C8, amended: observer isolation holds for the refined events only.  If
the draft boundary call succeeds with non-empty formatted text and the
observer returns normally on the draft event, the pipeline always ends in
an `ok: true` result, whatever the observer does on refined events (and
whatever the later boundary calls do); a throw on the draft event, by
contrast, aborts the request with `ok: false`. -/
theorem c8_observer_isolation_amended (fmt : String → String) (cfg : RefineConfig)
    (exec : Nat → Except ExecErr String) (obs : Ev → Option ExecErr) (s0 : String)
    (h0 : exec 0 = .ok s0) (hne : fmt s0 ≠ "")
    (hdr : obs (draftEvent cfg (stripIncompleteMarker (fmt s0))) = none) :
    (respondMentionModel fmt cfg exec obs).outcome.isOk = true := by
  simp only [respondMentionModel, h0, if_neg hne, hdr]
  by_cases hen : cfg.enabled = true
  · simp only [hen, if_pos]
    exact refineLoop_isOk fmt exec obs cfg.maxRefines cfg.totalPasses (fmt s0)
      (stripIncompleteMarker (fmt s0)) cfg.maxRefines 0 (fmt s0)
      (stripIncompleteMarker (fmt s0))
  · simp only [Bool.not_eq_true] at hen
    simp only [hen, Bool.false_eq_true, if_false]
    rfl

/-- Witness for the amended C8: an observer that throws on every refined
event but not on the draft event still yields an `ok: true` result. -/
theorem c8_observer_isolation_amended_witness :
    (respondMentionModel id ⟨true, 1⟩ (fun _ => Except.ok "hi")
      (fun ev => if ev.stage = Stage.refined then some ⟨"boom", ""⟩ else none)).outcome.isOk
      = true :=
  c8_observer_isolation_amended id ⟨true, 1⟩ (fun _ => Except.ok "hi")
    (fun ev => if ev.stage = Stage.refined then some ⟨"boom", ""⟩ else none)
    "hi" rfl (by decide) (by decide)

/-- Every `refined: false` exit of the refine loop carries exactly the
draft display text. -/
theorem refineLoop_false_text (fmt : String → String) (exec : Nat → Except ExecErr String)
    (obs : Ev → Option ExecErr) (maxR totP : Nat) (draftI draftD : String) :
    ∀ (r attempt : Nat) (curI curD t : String),
      (refineLoop fmt exec obs maxR totP draftI draftD attempt r curI curD).outcome
        = .success t false → t = draftD := by
  intro r
  induction r with
  | zero =>
    intro attempt curI curD t h
    simp only [refineLoop, afterLoop] at h
    split_ifs at h
    · simp at h
    · simp at h
      exact h.symm
  | succ n ih =>
    intro attempt curI curD t h
    cases hexec : exec (attempt + 1) with
    | error e =>
      simp only [refineLoop, hexec, afterLoop] at h
      split_ifs at h
      · simp at h
      · simp at h
        exact h.symm
    | ok out =>
      simp only [refineLoop, hexec] at h
      by_cases hadopt : fmt out ≠ "" ∧ fmt out ≠ curI
      · rw [if_pos hadopt] at h
        cases hobs : obs _ with
        | some e =>
          rw [hobs] at h
          simp only [afterLoop] at h
          split_ifs at h
          · simp at h
          · simp at h
            exact h.symm
        | none =>
          rw [hobs] at h
          by_cases hmark : strIncludes (fmt out) INCOMPLETE_MARKER = true
          · simp only [hmark, if_pos] at h
            exact ih (attempt + 1) (fmt out) (stripIncompleteMarker (fmt out)) t h
          · rw [if_neg hmark] at h
            simp at h
      · rw [if_neg hadopt] at h
        by_cases hmark : strIncludes curI INCOMPLETE_MARKER = true
        · simp only [hmark, if_pos] at h
          exact ih (attempt + 1) curI curD t h
        · rw [if_neg hmark] at h
          simp at h

/-- Claim C3, counterexample: a marker-free draft followed by a refine pass that
returns the identical text converges inside the loop and returns
`refined: true` even though the returned text equals the draft — refuting
"refined is true iff the returned text differs from the draft". -/
theorem c3_refined_flag_counterexample :
    (respondMentionModel id ⟨true, 1⟩ (fun _ => Except.ok "answer")
      (fun _ => none)).outcome = .success "answer" true ∧
    stripIncompleteMarker (id "answer") = "answer" := by
  decide

/-- Claim C3, amended: in every `ok: true` result, `refined = false` implies the
returned text is exactly the marker-stripped pass-1 draft, and a returned
text that differs from the stripped draft forces `refined = true`; the
converse fails only in that `refined = true` can also be returned with the
draft text itself (when the loop converges via a pass that adopted no
change). -/
theorem c3_refined_flag_amended (fmt : String → String) (cfg : RefineConfig)
    (exec : Nat → Except ExecErr String) (obs : Ev → Option ExecErr)
    (s0 t : String) (r : Bool)
    (h0 : exec 0 = .ok s0)
    (hres : (respondMentionModel fmt cfg exec obs).outcome = .success t r) :
    (r = false → t = stripIncompleteMarker (fmt s0)) ∧
    (t ≠ stripIncompleteMarker (fmt s0) → r = true) := by
  have key : r = false → t = stripIncompleteMarker (fmt s0) := by
    intro hr
    subst hr
    simp only [respondMentionModel, h0] at hres
    by_cases hne : fmt s0 = ""
    · rw [if_pos hne] at hres
      simp at hres
    · rw [if_neg hne] at hres
      cases hobs : obs (draftEvent cfg (stripIncompleteMarker (fmt s0))) with
      | some e =>
        rw [hobs] at hres
        simp at hres
      | none =>
        rw [hobs] at hres
        by_cases hen : cfg.enabled = true
        · simp only [hen, if_pos] at hres
          exact refineLoop_false_text fmt exec obs cfg.maxRefines cfg.totalPasses
            (fmt s0) (stripIncompleteMarker (fmt s0)) cfg.maxRefines 0 (fmt s0)
            (stripIncompleteMarker (fmt s0)) t hres
        · simp only [Bool.not_eq_true] at hen
          simp only [hen, Bool.false_eq_true, if_false] at hres
          simp at hres
          exact hres.symm
  refine ⟨key, ?_⟩
  intro hne
  cases hr : r with
  | false => exact absurd (key hr) hne
  | true => rfl

/-- Witness for the amended C3: with refinement disabled the pipeline
returns the stripped draft with `refined = false`. -/
theorem c3_refined_flag_amended_witness :
    (false = false → "x" = stripIncompleteMarker (id "x")) ∧
    ("x" ≠ stripIncompleteMarker (id "x") → false = true) :=
  c3_refined_flag_amended id ⟨false, 0⟩ (fun _ => Except.ok "x") (fun _ => none)
    "x" "x" false rfl (by decide)

/-- Claim C1: with `maxRefines = 2` (`totalPasses = 3`), when all three boundary
calls succeed, every formatted pass text still contains the completion
marker, and the observer returns normally, the pipeline performs exactly 3
boundary invocations and ends `ok: true` with the marker-stripped text of
the last adopted pass (`refineFold` replays the adoption rule: a non-empty
changed text replaces the current one); it never returns `ok: false`. -/
theorem c1_refinement_exhaustion (fmt : String → String)
    (exec : Nat → Except ExecErr String) (obs : Ev → Option ExecErr)
    (s0 s1 s2 : String)
    (h0 : exec 0 = .ok s0) (h1 : exec 1 = .ok s1) (h2 : exec 2 = .ok s2)
    (m0 : strIncludes (fmt s0) INCOMPLETE_MARKER = true)
    (m1 : strIncludes (fmt s1) INCOMPLETE_MARKER = true)
    (m2 : strIncludes (fmt s2) INCOMPLETE_MARKER = true)
    (hobs : ∀ ev, obs ev = none) :
    (respondMentionModel fmt ⟨true, 2⟩ exec obs).calls = 3 ∧
    (respondMentionModel fmt ⟨true, 2⟩ exec obs).outcome =
      .success (stripIncompleteMarker (refineFold fmt exec (fmt s0) 2))
        (decide (refineFold fmt exec (fmt s0) 2 ≠ fmt s0)) ∧
    (respondMentionModel fmt ⟨true, 2⟩ exec obs).outcome.isOk = true := by
  have hne0 : fmt s0 ≠ "" := marker_mem_ne_empty m0
  have hne1 : fmt s1 ≠ "" := marker_mem_ne_empty m1
  have hne2 : fmt s2 ≠ "" := marker_mem_ne_empty m2
  have hfold1 : refineFold fmt exec (fmt s0) 1 = adoptStep fmt (fmt s0) (exec 1) := rfl
  have hfold2 : refineFold fmt exec (fmt s0) 2 =
      adoptStep fmt (refineFold fmt exec (fmt s0) 1) (exec 2) := rfl
  have key : (respondMentionModel fmt ⟨true, 2⟩ exec obs).calls = 3 ∧
      (respondMentionModel fmt ⟨true, 2⟩ exec obs).outcome =
        .success (stripIncompleteMarker (refineFold fmt exec (fmt s0) 2))
          (decide (refineFold fmt exec (fmt s0) 2 ≠ fmt s0)) := by
    by_cases hc1 : fmt s1 = fmt s0
    · have ha1 : refineFold fmt exec (fmt s0) 1 = fmt s0 := by
        rw [hfold1, h1]
        simp [adoptStep, hc1]
      by_cases hc2 : fmt s2 = fmt s0
      · have ha2 : refineFold fmt exec (fmt s0) 2 = fmt s0 := by
          rw [hfold2, ha1, h2]
          simp [adoptStep, hc2]
        constructor <;>
          simp [respondMentionModel, refineLoop, h0, h1, h2, hobs, hne0,
            hc1, hc2, m0, m1, m2, afterLoop, ha2]
      · have ha2 : refineFold fmt exec (fmt s0) 2 = fmt s2 := by
          rw [hfold2, ha1, h2]
          simp [adoptStep, hne2, hc2]
        constructor <;>
          simp [respondMentionModel, refineLoop, h0, h1, h2, hobs, hne0,
            hc1, hc2, m0, m1, m2, afterLoop, ha2, hne2]
    · have ha1 : refineFold fmt exec (fmt s0) 1 = fmt s1 := by
        rw [hfold1, h1]
        simp [adoptStep, hne1, hc1]
      by_cases hc2 : fmt s2 = fmt s1
      · have ha2 : refineFold fmt exec (fmt s0) 2 = fmt s1 := by
          rw [hfold2, ha1, h2]
          simp [adoptStep, hc2]
        constructor <;>
          simp [respondMentionModel, refineLoop, h0, h1, h2, hobs, hne0,
            hne1, hc1, hc2, m0, m1, m2, afterLoop, ha2]
      · have ha2 : refineFold fmt exec (fmt s0) 2 = fmt s2 := by
          rw [hfold2, ha1, h2]
          simp [adoptStep, hne2, hc2]
        by_cases hterm : fmt s2 = fmt s0
        · constructor <;>
            simp [respondMentionModel, refineLoop, h0, h1, h2, hobs, hne0,
              hne1, hne2, hc1, hc2, Ne.symm hc1, Ne.symm hc2, m0, m1, m2,
              afterLoop, ha2, hterm]
        · constructor <;>
            simp [respondMentionModel, refineLoop, h0, h1, h2, hobs, hne0,
              hne1, hne2, hc1, hc2, Ne.symm hc1, Ne.symm hc2, Ne.symm hterm,
              m0, m1, m2, afterLoop, ha2, hterm]
  refine ⟨key.1, key.2, ?_⟩
  rw [key.2]
  rfl

/-- Witness for C1: three concrete marker-carrying outputs drive the
pipeline through the draft and both refine passes. -/
theorem c1_refinement_exhaustion_witness :
    (respondMentionModel id ⟨true, 2⟩
      (fun i => if i = 0 then Except.ok "回答A ※暫定回答"
        else if i = 1 then Except.ok "回答B ※暫定回答"
        else Except.ok "回答C ※暫定回答") (fun _ => none)).calls = 3 ∧
    (respondMentionModel id ⟨true, 2⟩
      (fun i => if i = 0 then Except.ok "回答A ※暫定回答"
        else if i = 1 then Except.ok "回答B ※暫定回答"
        else Except.ok "回答C ※暫定回答") (fun _ => none)).outcome =
      .success "回答C" true := by
  have h := c1_refinement_exhaustion id
    (fun i => if i = 0 then Except.ok "回答A ※暫定回答"
      else if i = 1 then Except.ok "回答B ※暫定回答"
      else Except.ok "回答C ※暫定回答") (fun _ => none)
    "回答A ※暫定回答" "回答B ※暫定回答" "回答C ※暫定回答"
    rfl rfl rfl (by decide) (by decide) (by decide) (fun _ => rfl)
  refine ⟨h.1, ?_⟩
  rw [h.2.1]
  decide

/-- Shifting the base of the adoption fold by one absorbed step. -/
theorem refineFoldFrom_shift (fmt : String → String)
    (exec : Nat → Except ExecErr String) (base : Nat) (c : String) :
    ∀ j, refineFoldFrom fmt exec (base + 1) (adoptStep fmt c (exec (base + 1))) j =
      refineFoldFrom fmt exec base c (j + 1) := by
  intro j
  induction j with
  | zero => rfl
  | succ n ih =>
    show adoptStep fmt _ (exec (base + 1 + n + 1)) = adoptStep fmt _ (exec (base + (n + 1) + 1))
    rw [ih]
    have hidx : base + 1 + n + 1 = base + (n + 1) + 1 := by omega
    rw [hidx]

/-- If the pipeline is inside the refine loop with display text in sync,
the next `m` refine calls succeed while the marker survives each of them,
and call `m + 1` throws, then the loop `break`s to the post-loop return
with the folded current text, having made `m + 1` boundary calls. -/
theorem refineLoop_throw (fmt : String → String) (exec : Nat → Except ExecErr String)
    (obs : Ev → Option ExecErr) (maxR totP : Nat) (draftI draftD : String)
    (hobs : ∀ ev, obs ev = none) :
    ∀ (m attempt r : Nat) (curI : String),
      m < r →
      (∀ j, 1 ≤ j → j ≤ m → ∃ s, exec (attempt + j) = .ok s) →
      (∀ j, 1 ≤ j → j ≤ m →
        strIncludes (refineFoldFrom fmt exec attempt curI j) INCOMPLETE_MARKER = true) →
      (∃ e, exec (attempt + m + 1) = .error e) →
      (refineLoop fmt exec obs maxR totP draftI draftD attempt r curI
          (stripIncompleteMarker curI)).outcome =
        afterLoop draftI draftD (refineFoldFrom fmt exec attempt curI m)
          (stripIncompleteMarker (refineFoldFrom fmt exec attempt curI m)) ∧
      (refineLoop fmt exec obs maxR totP draftI draftD attempt r curI
          (stripIncompleteMarker curI)).calls = m + 1 := by
  intro m
  induction m with
  | zero =>
    intro attempt r curI hr _hok _hmark hthrow
    obtain ⟨e, he⟩ := hthrow
    obtain ⟨r', rfl⟩ : ∃ r', r = r' + 1 := ⟨r - 1, by omega⟩
    constructor <;> simp [refineLoop, he, refineFoldFrom]
  | succ m ih =>
    intro attempt r curI hr hok hmark hthrow
    obtain ⟨r', rfl⟩ : ∃ r', r = r' + 1 := ⟨r - 1, by omega⟩
    obtain ⟨s, hs⟩ := hok 1 le_rfl (by omega)
    have hs' : exec (attempt + 1) = .ok s := hs
    have hshift : ∀ c', adoptStep fmt curI (exec (attempt + 1)) = c' →
        ∀ j, refineFoldFrom fmt exec (attempt + 1) c' j =
          refineFoldFrom fmt exec attempt curI (j + 1) := by
      intro c' hc' j
      rw [← hc']
      exact refineFoldFrom_shift fmt exec attempt curI j
    have hok' : ∀ j, 1 ≤ j → j ≤ m → ∃ t, exec (attempt + 1 + j) = .ok t := by
      intro j hj1 hjm
      have := hok (j + 1) (by omega) (by omega)
      have hidx : attempt + (j + 1) = attempt + 1 + j := by omega
      rwa [hidx] at this
    have hthrow' : ∃ e, exec (attempt + 1 + m + 1) = .error e := by
      have hidx : attempt + (m + 1) + 1 = attempt + 1 + m + 1 := by omega
      rwa [hidx] at hthrow
    by_cases hadopt : fmt s ≠ "" ∧ fmt s ≠ curI
    · have hstep : adoptStep fmt curI (exec (attempt + 1)) = fmt s := by
        simp [adoptStep, hs', hadopt]
      have hmark1 : strIncludes (fmt s) INCOMPLETE_MARKER = true := by
        have := hmark 1 le_rfl (by omega)
        rw [show refineFoldFrom fmt exec attempt curI 1 =
          adoptStep fmt curI (exec (attempt + 1)) from rfl, hstep] at this
        exact this
      have hmark' : ∀ j, 1 ≤ j → j ≤ m →
          strIncludes (refineFoldFrom fmt exec (attempt + 1) (fmt s) j)
            INCOMPLETE_MARKER = true := by
        intro j hj1 hjm
        rw [hshift (fmt s) hstep j]
        exact hmark (j + 1) (by omega) (by omega)
      obtain ⟨iho, ihc⟩ := ih (attempt + 1) r' (fmt s) (by omega) hok' hmark' hthrow'
      simp only [refineLoop, hs', if_pos hadopt, hobs, hmark1, if_pos]
      constructor
      · rw [iho, hshift (fmt s) hstep m]
      · rw [ihc]
    · have hstep : adoptStep fmt curI (exec (attempt + 1)) = curI := by
        simp only [adoptStep, hs']
        rw [if_neg hadopt]
      have hmark1 : strIncludes curI INCOMPLETE_MARKER = true := by
        have := hmark 1 le_rfl (by omega)
        rw [show refineFoldFrom fmt exec attempt curI 1 =
          adoptStep fmt curI (exec (attempt + 1)) from rfl, hstep] at this
        exact this
      have hmark' : ∀ j, 1 ≤ j → j ≤ m →
          strIncludes (refineFoldFrom fmt exec (attempt + 1) curI j)
            INCOMPLETE_MARKER = true := by
        intro j hj1 hjm
        rw [hshift curI hstep j]
        exact hmark (j + 1) (by omega) (by omega)
      obtain ⟨iho, ihc⟩ := ih (attempt + 1) r' curI (by omega) hok' hmark' hthrow'
      simp only [refineLoop, hs', if_neg hadopt, hmark1, if_pos]
      constructor
      · rw [iho, hshift curI hstep m]
      · rw [ihc]

/-- Claim C4: if the draft pass succeeds with non-empty formatted text, the
observer is benign, refine calls `1..k-1` succeed while the marker survives
each of them, and refine call `k` (`k ≤ maxRefines`) throws, then the
pipeline stops immediately after the failed call (exactly `k + 1` boundary
invocations) and still returns `ok: true` with the marker-stripped last
successfully adopted text — the pass-1 draft if no refine pass was
adopted. -/
theorem c4_refine_failure_nonfatal (fmt : String → String) (cfg : RefineConfig)
    (exec : Nat → Except ExecErr String) (obs : Ev → Option ExecErr)
    (s0 : String) (k : Nat)
    (hen : cfg.enabled = true)
    (h0 : exec 0 = .ok s0) (hne : fmt s0 ≠ "")
    (hobs : ∀ ev, obs ev = none)
    (hk1 : 1 ≤ k) (hk2 : k ≤ cfg.maxRefines)
    (hok : ∀ j, 1 ≤ j → j < k → ∃ s, exec j = .ok s)
    (hmark : ∀ j, 1 ≤ j → j < k →
      strIncludes (refineFold fmt exec (fmt s0) j) INCOMPLETE_MARKER = true)
    (hthrow : ∃ e, exec k = .error e) :
    (respondMentionModel fmt cfg exec obs).outcome =
      .success (stripIncompleteMarker (refineFold fmt exec (fmt s0) (k - 1)))
        (decide (refineFold fmt exec (fmt s0) (k - 1) ≠ fmt s0)) ∧
    (respondMentionModel fmt cfg exec obs).calls = k + 1 := by
  have hok0 : ∀ j, 1 ≤ j → j ≤ k - 1 → ∃ s, exec (0 + j) = .ok s := by
    intro j hj1 hjm
    have := hok j hj1 (by omega)
    rwa [show (0 : Nat) + j = j by omega]
  have hmark0 : ∀ j, 1 ≤ j → j ≤ k - 1 →
      strIncludes (refineFoldFrom fmt exec 0 (fmt s0) j) INCOMPLETE_MARKER = true := by
    intro j hj1 hjm
    exact hmark j hj1 (by omega)
  have hthrow0 : ∃ e, exec (0 + (k - 1) + 1) = .error e := by
    rwa [show (0 : Nat) + (k - 1) + 1 = k by omega]
  obtain ⟨lo, lc⟩ := refineLoop_throw fmt exec obs cfg.maxRefines cfg.totalPasses
    (fmt s0) (stripIncompleteMarker (fmt s0)) hobs (k - 1) 0 cfg.maxRefines
    (fmt s0) (by omega) hok0 hmark0 hthrow0
  have hfold : refineFoldFrom fmt exec 0 (fmt s0) (k - 1) =
      refineFold fmt exec (fmt s0) (k - 1) := rfl
  constructor
  · simp only [respondMentionModel, h0, if_neg hne, hobs, hen, if_pos]
    rw [lo, hfold]
    unfold afterLoop
    by_cases hd : refineFold fmt exec (fmt s0) (k - 1) = fmt s0
    · rw [if_neg (by simpa using hd), hd]
      simp
    · rw [if_pos (by simpa using hd)]
      simp [hd]
  · simp only [respondMentionModel, h0, if_neg hne, hobs, hen, if_pos]
    rw [lc]
    omega

/-- Witness for C4: the draft succeeds and the first refine call throws, so
the pipeline returns the stripped draft with `ok: true` after 2 calls. -/
theorem c4_refine_failure_nonfatal_witness :
    (respondMentionModel id ⟨true, 4⟩
      (fun i => if i = 0 then Except.ok "下書き ※暫定回答" else Except.error ⟨"boom", ""⟩)
      (fun _ => none)).outcome = .success "下書き" false ∧
    (respondMentionModel id ⟨true, 4⟩
      (fun i => if i = 0 then Except.ok "下書き ※暫定回答" else Except.error ⟨"boom", ""⟩)
      (fun _ => none)).calls = 2 := by
  have h := c4_refine_failure_nonfatal id ⟨true, 4⟩
    (fun i => if i = 0 then Except.ok "下書き ※暫定回答" else Except.error ⟨"boom", ""⟩)
    (fun _ => none) "下書き ※暫定回答" 1 rfl rfl (by decide) (fun _ => rfl)
    le_rfl (by norm_num)
    (fun j hj1 hjk => absurd (lt_of_le_of_lt hj1 hjk) (lt_irrefl 1))
    (fun j hj1 hjk => absurd (lt_of_le_of_lt hj1 hjk) (lt_irrefl 1))
    ⟨⟨"boom", ""⟩, rfl⟩
  refine ⟨?_, h.2⟩
  rw [h.1]
  decide

/-- Claim C10: a refine pass whose boundary call succeeds but whose formatted
output is the empty string is treated as no change: the internal and
display texts are kept, no progress event is delivered for that pass, the
request does not fail, and the loop proceeds with the marker-based
termination check on the unchanged text — returning the current display
with `ok: true` if the marker is already gone, and otherwise continuing
with the remaining attempts from the same state (one more boundary call on
the counter, no extra event). -/
theorem c10_empty_refine_output (fmt : String → String)
    (exec : Nat → Except ExecErr String) (obs : Ev → Option ExecErr)
    (maxR totP : Nat) (draftI draftD : String) (attempt r : Nat)
    (curI curD s : String)
    (hexec : exec (attempt + 1) = .ok s) (hempty : fmt s = "") :
    (strIncludes curI INCOMPLETE_MARKER = true →
      (refineLoop fmt exec obs maxR totP draftI draftD attempt (r + 1) curI curD).outcome
        = (refineLoop fmt exec obs maxR totP draftI draftD (attempt + 1) r curI curD).outcome ∧
      (refineLoop fmt exec obs maxR totP draftI draftD attempt (r + 1) curI curD).events
        = (refineLoop fmt exec obs maxR totP draftI draftD (attempt + 1) r curI curD).events ∧
      (refineLoop fmt exec obs maxR totP draftI draftD attempt (r + 1) curI curD).calls
        = (refineLoop fmt exec obs maxR totP draftI draftD (attempt + 1) r curI curD).calls + 1) ∧
    (strIncludes curI INCOMPLETE_MARKER = false →
      refineLoop fmt exec obs maxR totP draftI draftD attempt (r + 1) curI curD
        = ⟨.success curD true, 1, []⟩) := by
  have hnadopt : ¬ (fmt s ≠ "" ∧ fmt s ≠ curI) := by
    intro h
    exact h.1 hempty
  constructor
  · intro hmark
    refine ⟨?_, ?_, ?_⟩ <;> simp [refineLoop, hexec, hnadopt, hmark]
  · intro hmark
    simp only [refineLoop, hexec, if_neg hnadopt, hmark]
    rfl

/-- Witness for C10: a marker-carrying current text survives an
empty-output pass unchanged (and the continuation exhausts), while a
marker-free current text converges immediately. -/
theorem c10_empty_refine_output_witness :
    ((refineLoop id (fun _ => Except.ok "") (fun _ => none) 2 3 "d ※暫定回答"
        "d" 0 2 "d ※暫定回答" "d").outcome
      = (refineLoop id (fun _ => Except.ok "") (fun _ => none) 2 3 "d ※暫定回答"
        "d" 1 1 "d ※暫定回答" "d").outcome ∧
     (refineLoop id (fun _ => Except.ok "") (fun _ => none) 2 3 "d ※暫定回答"
        "d" 0 2 "d ※暫定回答" "d").events
      = (refineLoop id (fun _ => Except.ok "") (fun _ => none) 2 3 "d ※暫定回答"
        "d" 1 1 "d ※暫定回答" "d").events ∧
     (refineLoop id (fun _ => Except.ok "") (fun _ => none) 2 3 "d ※暫定回答"
        "d" 0 2 "d ※暫定回答" "d").calls
      = (refineLoop id (fun _ => Except.ok "") (fun _ => none) 2 3 "d ※暫定回答"
        "d" 1 1 "d ※暫定回答" "d").calls + 1) ∧
    refineLoop id (fun _ => Except.ok "") (fun _ => none) 2 3 "q" "q" 0 2 "q" "q"
      = ⟨.success "q" true, 1, []⟩ := by
  constructor
  · exact (c10_empty_refine_output id (fun _ => Except.ok "") (fun _ => none) 2 3
      "d ※暫定回答" "d" 0 1 "d ※暫定回答" "d" "" rfl rfl).1 (by decide)
  · exact (c10_empty_refine_output id (fun _ => Except.ok "") (fun _ => none) 2 3
      "q" "q" 0 1 "q" "q" "" rfl rfl).2 (by decide)

/-! ### Structural properties of stripIncompleteMarker (for C7)

`stripIncompleteMarker` is *not* idempotent in general (removing a marker
occurrence can juxtapose the two halves of a second marker), and it is not
the identity on marker-free strings (it also normalises whitespace).  The
lemmas below characterise exactly when the function acts as the identity:
the text must be marker-free, contain no two adjacent whitespace characters
(`noTwoWs`) and carry no leading or trailing whitespace (`isTrimmed`) — and
every output of the function that is marker-free has all three properties. -/

/-- No two adjacent JS-whitespace characters. -/
def noTwoWs : List Char → Bool
  | a :: b :: rest => (!(isJsSpace a && isJsSpace b)) && noTwoWs (b :: rest)
  | _ => true

/-- Neither end of the list is JS whitespace. -/
def isTrimmed (l : List Char) : Bool :=
  (match l.head? with
    | some c => !isJsSpace c
    | none => true) &&
  (match l.getLast? with
    | some c => !isJsSpace c
    | none => true)

/-- The list-level core of `stripIncompleteMarker`. -/
def listStrip (l : List Char) : List Char :=
  let l1 := stripMarkerF l.length l
  let l2 := collapseWsF l1.length l1
  let l3 := collapseNlF l2.length l2
  trimJs l3

theorem stripIncompleteMarker_eq_listStrip (s : String) :
    stripIncompleteMarker s = String.mk (listStrip s.data) := rfl

theorem noTwoWs_cons₂ (a b : Char) (rest : List Char) :
    noTwoWs (a :: b :: rest) =
      ((!(isJsSpace a && isJsSpace b)) && noTwoWs (b :: rest)) := rfl

theorem noTwoWs_tail {c : Char} {l : List Char}
    (h : noTwoWs (c :: l) = true) : noTwoWs l = true := by
  cases l with
  | nil => rfl
  | cons b t =>
    rw [noTwoWs_cons₂, Bool.and_eq_true] at h
    exact h.2

/-- A marker-free list is left untouched by the marker-removal scan, for
any fuel. -/
theorem stripMarkerF_no_marker :
    ∀ (n : Nat) (l : List Char), hasSub markerChars l = false →
      stripMarkerF n l = l := by
  intro n
  induction n with
  | zero => intro l _; rfl
  | succ n ih =>
    intro l h
    cases l with
    | nil => rfl
    | cons c rest =>
      rw [hasSub, Bool.or_eq_false_iff] at h
      rw [stripMarkerF, if_neg (by simp [h.1]), ih rest h.2]

/-- With no two adjacent whitespace characters the `\s\x7b2,\x7d` collapse
never fires, for any fuel. -/
theorem collapseWsF_noTwoWs_id :
    ∀ (n : Nat) (l : List Char), noTwoWs l = true → collapseWsF n l = l := by
  intro n
  induction n with
  | zero => intro l _; rfl
  | succ n ih =>
    intro l h
    match l with
    | [] => rfl
    | [c] => rfl
    | a :: b :: t =>
      rw [noTwoWs_cons₂, Bool.and_eq_true, Bool.not_eq_true'] at h
      rw [collapseWsF, if_neg (by simp [h.1]), ih (b :: t) h.2]

/-- With no two adjacent whitespace characters the `\n\x7b3,\x7d` collapse
never fires either (a newline is whitespace), for any fuel. -/
theorem collapseNlF_noTwoWs_id :
    ∀ (n : Nat) (l : List Char), noTwoWs l = true → collapseNlF n l = l := by
  intro n
  induction n with
  | zero => intro l _; rfl
  | succ n ih =>
    intro l h
    match l with
    | [] => rfl
    | [c] => rfl
    | [c, d] => rfl
    | a :: b :: c :: t =>
      rw [noTwoWs_cons₂, Bool.and_eq_true, Bool.not_eq_true'] at h
      have hcond : ¬ ((a = '\n' && b = '\n' && c = '\n') = true) := by
        intro hc
        simp only [Bool.and_eq_true, decide_eq_true_eq] at hc
        rw [hc.1.1, hc.1.2] at h
        simp at h
        exact absurd h.1 (by decide)
      rw [collapseNlF, if_neg hcond, ih (b :: c :: t) h.2]

/-- The head of a `dropWhile` result never satisfies the predicate. -/
theorem dropWhile_head_false (p : Char → Bool) :
    ∀ (l : List Char) (c : Char), (l.dropWhile p).head? = some c → p c = false := by
  intro l
  induction l with
  | nil => intro c h; simp at h
  | cons a t ih =>
    intro c h
    rw [List.dropWhile_cons] at h
    by_cases hp : p a = true
    · rw [if_pos hp] at h
      exact ih c h
    · rw [if_neg hp] at h
      simp at h
      rw [← h]
      exact Bool.not_eq_true _ ▸ (by simpa using hp)

/-- `dropWhile` is the identity when the head does not satisfy the
predicate. -/
theorem dropWhile_head_id (p : Char → Bool) (l : List Char)
    (h : ∀ c, l.head? = some c → p c = false) : l.dropWhile p = l := by
  cases l with
  | nil => rfl
  | cons a t =>
    rw [List.dropWhile_cons, if_neg (by simp [h a rfl])]

/-- JS `trim` is the identity on trimmed lists. -/
theorem trimJs_trimmed_id (l : List Char) (h : isTrimmed l = true) :
    trimJs l = l := by
  rw [isTrimmed, Bool.and_eq_true] at h
  have h1 : l.dropWhile isJsSpace = l := by
    apply dropWhile_head_id
    intro c hc
    have := h.1
    rw [hc] at this
    simpa using this
  have h2 : l.reverse.dropWhile isJsSpace = l.reverse := by
    apply dropWhile_head_id
    intro c hc
    rw [List.head?_reverse] at hc
    have := h.2
    rw [hc] at this
    simpa using this
  rw [trimJs, h1, h2, List.reverse_reverse]

theorem collapseWsF_nil (n : Nat) : collapseWsF n [] = [] := by
  cases n <;> rfl

/-- A non-whitespace head survives the whitespace collapse. -/
theorem collapseWsF_head (n : Nat) (l : List Char) (c : Char)
    (hc : l.head? = some c) (hws : isJsSpace c = false) :
    (collapseWsF n l).head? = some c := by
  cases n with
  | zero => exact hc
  | succ n =>
    match l with
    | [] => simp at hc
    | [a] =>
      simp at hc
      subst hc
      rfl
    | a :: b :: t =>
      simp at hc
      subst hc
      rw [collapseWsF, if_neg (by simp [hws])]
      rfl

/-- Building `noTwoWs` by consing a character whose right neighbour is
compatible. -/
theorem noTwoWs_cons (c : Char) (l : List Char) (hl : noTwoWs l = true)
    (h : isJsSpace c = false ∨ ∀ d, l.head? = some d → isJsSpace d = false) :
    noTwoWs (c :: l) = true := by
  cases l with
  | nil => rfl
  | cons b t =>
    rw [noTwoWs_cons₂, Bool.and_eq_true, Bool.not_eq_true']
    refine ⟨?_, hl⟩
    rcases h with h | h
    · simp [h]
    · simp [h b rfl]

/-- The whitespace collapse, run with enough fuel, leaves no two adjacent
whitespace characters. -/
theorem noTwoWs_collapseWsF :
    ∀ (n : Nat) (l : List Char), l.length ≤ n →
      noTwoWs (collapseWsF n l) = true := by
  intro n
  induction n with
  | zero =>
    intro l hl
    have : l = [] := List.eq_nil_of_length_eq_zero (Nat.le_zero.mp hl)
    subst this
    rfl
  | succ n ih =>
    intro l hl
    match l, hl with
    | [], _ => rw [collapseWsF_nil]; rfl
    | [c], _ => rfl
    | a :: b :: t, hl =>
      by_cases hab : (isJsSpace a && isJsSpace b) = true
      · rw [collapseWsF, if_pos hab]
        have hlen : (t.dropWhile isJsSpace).length ≤ n := by
          have h1 : (t.dropWhile isJsSpace).length ≤ t.length :=
            (List.dropWhile_suffix isJsSpace).length_le
          simp at hl
          omega
        apply noTwoWs_cons _ _ (ih _ hlen)
        right
        intro d hd
        cases hl' : (t.dropWhile isJsSpace).head? with
        | none =>
          have : t.dropWhile isJsSpace = [] := by
            cases h' : t.dropWhile isJsSpace with
            | nil => rfl
            | cons x xs => rw [h'] at hl'; simp at hl'
          rw [this, collapseWsF_nil] at hd
          simp at hd
        | some e =>
          have he : isJsSpace e = false := dropWhile_head_false _ t e hl'
          rw [collapseWsF_head n _ e hl' he] at hd
          have : e = d := by simpa using hd
          rw [← this]
          exact he
      · rw [collapseWsF, if_neg hab]
        have htail : noTwoWs (collapseWsF n (b :: t)) = true := by
          apply ih
          simp at hl ⊢
          omega
        apply noTwoWs_cons _ _ htail
        by_cases hwa : isJsSpace a = true
        · right
          have hwb : isJsSpace b = false := by
            by_cases hb : isJsSpace b = true
            · exact absurd (by simp [hwa, hb]) hab
            · simpa using hb
          intro d hd
          rw [collapseWsF_head n (b :: t) b rfl hwb] at hd
          have : b = d := by simpa using hd
          rw [← this]
          exact hwb
        · left
          simpa using hwa

/-- `noTwoWs` restricts to the left factor of an append. -/
theorem noTwoWs_append_left :
    ∀ (m suf : List Char), noTwoWs (m ++ suf) = true → noTwoWs m = true := by
  intro m
  induction m with
  | nil => intro suf _; rfl
  | cons a t ih =>
    intro suf h
    cases t with
    | nil => rfl
    | cons b t' =>
      rw [List.cons_append, List.cons_append] at h
      rw [noTwoWs_cons₂, Bool.and_eq_true] at h ⊢
      refine ⟨h.1, ?_⟩
      exact ih suf (by rw [List.cons_append]; exact h.2)

/-- `noTwoWs` restricts to the right factor of an append. -/
theorem noTwoWs_append_right :
    ∀ (pre x : List Char), noTwoWs (pre ++ x) = true → noTwoWs x = true := by
  intro pre
  induction pre with
  | nil => intro x h; exact h
  | cons a t ih =>
    intro x h
    rw [List.cons_append] at h
    exact ih x (noTwoWs_tail h)

/-- `trimJs` is an infix of its input, so it preserves `noTwoWs`. -/
theorem noTwoWs_trimJs (l : List Char) (h : noTwoWs l = true) :
    noTwoWs (trimJs l) = true := by
  obtain ⟨pre1, hpre1⟩ := List.dropWhile_suffix (l := l) isJsSpace
  obtain ⟨pre2, hpre2⟩ :=
    List.dropWhile_suffix (l := (l.dropWhile isJsSpace).reverse) isJsSpace
  have hny : noTwoWs (l.dropWhile isJsSpace) = true :=
    noTwoWs_append_right pre1 _ (by rw [hpre1]; exact h)
  have hy : l.dropWhile isJsSpace =
      ((l.dropWhile isJsSpace).reverse.dropWhile isJsSpace).reverse ++ pre2.reverse := by
    rw [← List.reverse_append, hpre2, List.reverse_reverse]
  exact noTwoWs_append_left _ _ (hy ▸ hny)

/-- The output of `trimJs` never starts or ends with whitespace. -/
theorem isTrimmed_trimJs (l : List Char) : isTrimmed (trimJs l) = true := by
  obtain ⟨pre2, hpre2⟩ :=
    List.dropWhile_suffix (l := (l.dropWhile isJsSpace).reverse) isJsSpace
  rw [isTrimmed, Bool.and_eq_true]
  constructor
  · rw [show (trimJs l).head? =
      ((l.dropWhile isJsSpace).reverse.dropWhile isJsSpace).getLast? from
        List.head?_reverse _]
    cases hz : ((l.dropWhile isJsSpace).reverse.dropWhile isJsSpace).getLast? with
    | none => rfl
    | some c =>
      have hor : ((l.dropWhile isJsSpace).reverse).getLast? = some c := by
        rw [← hpre2, List.getLast?_append, hz]
        rfl
      rw [List.getLast?_reverse] at hor
      have := dropWhile_head_false isJsSpace l c hor
      simp [this]
  · rw [show (trimJs l).getLast? =
      ((l.dropWhile isJsSpace).reverse.dropWhile isJsSpace).head? from
        List.getLast?_reverse _]
    cases hz : ((l.dropWhile isJsSpace).reverse.dropWhile isJsSpace).head? with
    | none => rfl
    | some c =>
      have := dropWhile_head_false isJsSpace (l.dropWhile isJsSpace).reverse c hz
      simp [this]

/-- Every output of the list-level strip is whitespace-normalised and
trimmed. -/
theorem listStrip_props (l : List Char) :
    noTwoWs (listStrip l) = true ∧ isTrimmed (listStrip l) = true := by
  simp only [listStrip]
  have h2 : noTwoWs (collapseWsF (stripMarkerF l.length l).length
      (stripMarkerF l.length l)) = true :=
    noTwoWs_collapseWsF _ _ le_rfl
  rw [collapseNlF_noTwoWs_id _ _ h2]
  exact ⟨noTwoWs_trimJs _ h2, isTrimmed_trimJs _⟩

/-- The list-level strip is the identity on marker-free,
whitespace-normalised, trimmed lists. -/
theorem listStrip_id (l : List Char) (hm : hasSub markerChars l = false)
    (hw : noTwoWs l = true) (ht : isTrimmed l = true) : listStrip l = l := by
  simp only [listStrip]
  rw [stripMarkerF_no_marker l.length l hm, collapseWsF_noTwoWs_id l.length l hw,
    collapseNlF_noTwoWs_id l.length l hw]
  exact trimJs_trimmed_id l ht

/-- Claim C7, counterexample: `stripIncompleteMarker` is not idempotent — on
`"※暫定※暫定回答回答"` the single scan removes the inner marker occurrence
and thereby *creates* a new one, so a second strip changes the result
again; and it is not the identity on marker-free input — `"a  b"` contains
no marker, yet the whitespace-normalisation step rewrites it to `"a b"`. -/
theorem c7_marker_stripping_counterexample :
    stripIncompleteMarker (stripIncompleteMarker "※暫定※暫定回答回答") ≠
      stripIncompleteMarker "※暫定※暫定回答回答" ∧
    strIncludes "a  b" INCOMPLETE_MARKER = false ∧
    stripIncompleteMarker "a  b" ≠ "a  b" := by
  refine ⟨by decide, by decide, by decide⟩

/-- Claim C7, amended: stripping is idempotent on every string whose stripped
form no longer contains the marker (the only way a second strip can differ
is when marker removal juxtaposed a fresh marker occurrence); and stripping
is the identity exactly on marker-free strings that are additionally
whitespace-normalised (no two adjacent whitespace characters) and trimmed. -/
theorem c7_marker_stripping_amended :
    (∀ s : String,
      strIncludes (stripIncompleteMarker s) INCOMPLETE_MARKER = false →
      stripIncompleteMarker (stripIncompleteMarker s) = stripIncompleteMarker s) ∧
    (∀ s : String,
      strIncludes s INCOMPLETE_MARKER = false →
      noTwoWs s.data = true → isTrimmed s.data = true →
      stripIncompleteMarker s = s) := by
  have hid : ∀ s : String, strIncludes s INCOMPLETE_MARKER = false →
      noTwoWs s.data = true → isTrimmed s.data = true →
      stripIncompleteMarker s = s := by
    intro s hm hw ht
    rw [stripIncompleteMarker_eq_listStrip, listStrip_id s.data hm hw ht]
  refine ⟨?_, hid⟩
  intro s hm
  obtain ⟨hw, ht⟩ := listStrip_props s.data
  exact hid (stripIncompleteMarker s) hm hw ht

/-- Witness for the amended C7: a string whose strip result is marker-free
is a fixed point of a second strip, and a plain trimmed word is untouched. -/
theorem c7_marker_stripping_amended_witness :
    stripIncompleteMarker (stripIncompleteMarker "回答 ※暫定回答") =
      stripIncompleteMarker "回答 ※暫定回答" ∧
    stripIncompleteMarker "hello" = "hello" := by
  constructor
  · exact c7_marker_stripping_amended.1 "回答 ※暫定回答" (by decide)
  · exact c7_marker_stripping_amended.2 "hello" (by decide) (by decide) (by decide)

end MyAgentWorkbench
